import Mathlib

/-!
Shallow embedding of the striping sender (`src/sender.rs`) of the mptcp
repository.

`Sender` owns an ordered pool of output streams (`VecDeque<W>`, head of the
Lean list = front of the deque) and the next-sequence cursor.  `batch_send`
drains one unsent segment per pooled stream, runs each write on its own task,
returns succeeding streams to the tail of the pool, drops failing streams and
aggregates their I/O errors.  `batch_send_all` loops `batch_send` until the
segment buffer reports completion or the pool is exhausted.  The
`AsyncAsyncWrite` adapter exposes write/flush/shutdown on top.

`Sequence` (u64 byte offset) and `SendStreamBuf` (the segment buffer) live in
`crate::message` / `crate::send_buf`, outside of the provided sources; they are
modelled from the spec (section 6) where noted.  Concurrency is flattened:
tasks of a round are joined in spawn order, which is one admissible schedule
of the `JoinSet`; the stated properties do not depend on the join order.
Machine arithmetic: sequence values are `u64`; the only arithmetic performed
on them is the cursor advance, taken modulo `2 ^ 64`.
-/

/-- Wire words are `u64`; `2 ^ 64` as a constant. -/
def U64MOD : Nat := 2 ^ 64

/-- A segment handed to one stream for one send attempt: a contiguous,
offset-tagged slice of the logical buffer.  Bytes are modelled as `Nat`. -/
structure Segment where
  start : Nat
  payload : List Nat
deriving DecidableEq, Repr

/-- One segment of the segment buffer, together with its sent flag.
Modelled from the spec: the segment buffer "tracks per-segment sent/unsent
state". -/
structure SegState where
  start : Nat
  payload : List Nat
  sent : Bool
deriving DecidableEq, Repr

/-- Modelled from the spec: `SendStreamBuf` (in `crate::send_buf`, not under
`src/`) owns the pending payload as a list of contiguous, non-overlapping
segments, each carrying its start offset and a sent flag. -/
structure SendStreamBuf where
  segs : List SegState
deriving DecidableEq, Repr

/-- Modelled from the spec: a fresh segment buffer over `data` starting at
offset `start` holds the whole buffer as one unsent segment (an empty buffer
has no segments: zero segments concatenate to the empty remainder). -/
def SendStreamBuf.new (data : List Nat) (start : Nat) : SendStreamBuf :=
  if data.isEmpty then ⟨[]⟩ else ⟨[⟨start, data, false⟩]⟩

/-- Chunk `data` into pieces of `c` bytes starting at offset `off`, as unsent
segment states.  `fuel` bounds the recursion; any `fuel ≥ data.length`
consumes all of `data` when `c ≥ 1`. -/
def chunkSegs (c : Nat) : Nat → Nat → List Nat → List SegState
  | 0, _, _ => []
  | _ + 1, _, [] => []
  | fuel + 1, off, b :: bs =>
      ⟨off, (b :: bs).take c, false⟩ :: chunkSegs c fuel (off + c) ((b :: bs).drop c)

/-- Modelled from the spec: `split_first_unsent_segment(width)` pre-splits the
unsent remainder into up to `width` contiguous segments (scenario A: 3 streams
and 9 bytes give 3 segments of 3 bytes), i.e. pieces of `⌈len / width⌉` bytes.
With `width = 0` the buffer is left as it is. -/
def SendStreamBuf.splitFirstUnsentSegment (sb : SendStreamBuf) (width : Nat) :
    SendStreamBuf :=
  match sb.segs with
  | [] => sb
  | g :: rest =>
      if width = 0 ∨ g.sent then sb
      else ⟨chunkSegs ((g.payload.length + width - 1) / width)
              g.payload.length g.start g.payload ++ rest⟩

/-- Modelled from the spec: the currently-unsent segments, in offset order. -/
def SendStreamBuf.iterUnsentSegments (sb : SendStreamBuf) : List Segment :=
  (sb.segs.filter (fun g => !g.sent)).map (fun g => ⟨g.start, g.payload⟩)

/-- Modelled from the spec: `mark_as_sent(seq)` idempotently marks the segment
starting at `seq` as sent. -/
def SendStreamBuf.markAsSent (sb : SendStreamBuf) (seq : Nat) : SendStreamBuf :=
  ⟨sb.segs.map (fun g => if g.start = seq then { g with sent := true } else g)⟩

/-- Modelled from the spec: `done()` is true iff every byte of the original
buffer has been marked sent. -/
def SendStreamBuf.done (sb : SendStreamBuf) : Bool :=
  sb.segs.all (fun g => g.sent)

/-- An output stream (`W : AsyncWrite`): `sid` identifies the stream, the
heads of `failPlan`/`flushFail`/`shutFail` script whether its next
write/flush/shutdown fails (missing entries mean success), and `written`,
`flushes`, `shutdowns` record the operations the stream observed.  A write
delivers the segment's offset-tagged payload to the stream. -/
structure OStream where
  sid : Nat
  failPlan : List Bool
  written : List (Nat × List Nat)
  flushFail : Bool
  flushes : Nat
  shutFail : Bool
  shutdowns : Nat
deriving DecidableEq, Repr

/-- One spawned write task (`segment.encode(&mut stream)` then return
`(segment.start_sequence(), stream)`): on failure the error carries the
failing stream's id; on success the stream has observed the payload. -/
def streamSend (seg : Segment) (s : OStream) : Except Nat (Nat × OStream) :=
  if s.failPlan.headD false then .error s.sid
  else .ok (seg.start,
    { s with failPlan := s.failPlan.tail,
             written := s.written ++ [(seg.start, seg.payload)] })

/-- `SendError` (`sender.rs`): pool empty, or the aggregated I/O errors of a
round (each error modelled by the failing stream's id, in join order). -/
inductive SendError where
  | noStreamLeft
  | io (errs : List Nat)
deriving DecidableEq, Repr

/-- The terminal error of `batch_send_all`. -/
inductive NoStreamLeft where
  | mk
deriving DecidableEq, Repr

/-- The sender: pool of streams (front = head) and next-sequence cursor. -/
structure Sender where
  streams : List OStream
  next : Nat
deriving DecidableEq, Repr

/-- `Sender::new(streams)`. -/
def Sender.new (streams : List OStream) : Sender :=
  ⟨streams, 0⟩

/-- The spawned tasks of one round: one unsent segment per stream popped from
the front of the pool, stopping when either runs out (`sender.rs` lines
38-49), joined in spawn order. -/
def roundResults (sd : Sender) (sb : SendStreamBuf) :
    List (Except Nat (Nat × OStream)) :=
  (sb.iterUnsentSegments.zip sd.streams).map (fun p => streamSend p.1 p.2)

/-- The streams of the pool that were not popped for this round. -/
def poolRest (sd : Sender) (sb : SendStreamBuf) : List OStream :=
  sd.streams.drop sb.iterUnsentSegments.length

/-- The successful task results `(sequence, stream)`, in join order. -/
def oksOf (results : List (Except Nat (Nat × OStream))) : List (Nat × OStream) :=
  results.filterMap (fun r => match r with | .ok p => some p | .error _ => none)

/-- The I/O errors of the failed tasks, in join order. -/
def errsOf (results : List (Except Nat (Nat × OStream))) : List Nat :=
  results.filterMap (fun r => match r with | .ok _ => none | .error e => some e)

/-- Mark a list of sequences as sent, in order. -/
def markAll (sb : SendStreamBuf) (seqs : List Nat) : SendStreamBuf :=
  seqs.foldl SendStreamBuf.markAsSent sb

/-- The reconcile loop of `batch_send` (lines 51-63): drain the task results;
a successful task's stream goes to the back of the pool and its sequence is
marked sent; a failed task's error is recorded. -/
def reconcile : List (Except Nat (Nat × OStream)) → List OStream → SendStreamBuf →
    List Nat → List OStream × SendStreamBuf × List Nat
  | [], pool, sb, errs => (pool, sb, errs)
  | .ok (seq, st) :: rest, pool, sb, errs =>
      reconcile rest (pool ++ [st]) (sb.markAsSent seq) errs
  | .error e :: rest, pool, sb, errs =>
      reconcile rest pool sb (errs ++ [e])

/-- `Sender::batch_send` (lines 30-68): fail fast on an empty pool, spawn one
task per unsent segment and available stream, reconcile all results, and fail
with the aggregate `Io` error iff any task failed. -/
def batchSend (sd : Sender) (sb : SendStreamBuf) :
    Except SendError Unit × Sender × SendStreamBuf :=
  if sd.streams.isEmpty then (.error .noStreamLeft, sd, sb)
  else
    let out := reconcile (roundResults sd sb) (poolRest sd sb) sb []
    if out.2.2.isEmpty then (.ok (), ⟨out.1, sd.next⟩, out.2.1)
    else (.error (.io out.2.2), ⟨out.1, sd.next⟩, out.2.1)

/-- The retry loop of `batch_send_all` (lines 75-86), with explicit fuel:
run a round; return the terminal error on `NoStreamLeft`; swallow `Io` errors
and retry; on success return once the segment buffer is done.  `none` means
the fuel ran out (never the case for the fuel used by `batchSendAll`). -/
def sendLoop : Nat → Sender → SendStreamBuf →
    Option (Except NoStreamLeft Unit × Sender × SendStreamBuf)
  | 0, _, _ => none
  | fuel + 1, sd, sb =>
      match batchSend sd sb with
      | (.error .noStreamLeft, sd', sb') => some (.error .mk, sd', sb')
      | (.error (.io _), sd', sb') => sendLoop fuel sd' sb'
      | (.ok _, sd', sb') =>
          if sb'.done then some (.ok (), sd', sb') else sendLoop fuel sd' sb'

/-- The number of unsent segments; together with the pool size it bounds the
number of rounds `batch_send_all` can run. -/
def unsentCount (sb : SendStreamBuf) : Nat :=
  (sb.segs.filter (fun g => !g.sent)).length

/-- Fuel sufficient for `sendLoop` to terminate. -/
def loopFuel (sd : Sender) (sb : SendStreamBuf) : Nat :=
  unsentCount sb + sd.streams.length + 1

/-- `Sender::batch_send_all` (lines 70-87): build a fresh segment buffer over
`data` at the current cursor, pre-split it to the pool width, loop rounds, and
on completion advance the cursor by the buffer length (u64 arithmetic).  The
final segment buffer (a local in the source) is returned as ghost output. -/
def batchSendAll (sd : Sender) (data : List Nat) :
    Except NoStreamLeft Unit × Sender × SendStreamBuf :=
  let sb0 := (SendStreamBuf.new data sd.next).splitFirstUnsentSegment
    sd.streams.length
  match sendLoop (loopFuel sd sb0) sd sb0 with
  | some (.ok _, sd', sb') =>
      (.ok (), ⟨sd'.streams, (sd'.next + data.length) % U64MOD⟩, sb')
  | some (.error e, sd', sb') => (.error e, sd', sb')
  | none => (.error .mk, sd, sb0)

/-- I/O error kinds surfaced by the `AsyncAsyncWrite` adapter: the
broken-pipe-class wrapper of `NoStreamLeft`, or a stream's own flush/shutdown
error (carrying the stream's id). -/
inductive IoErr where
  | brokenPipe
  | streamErr (sid : Nat)
deriving DecidableEq, Repr

/-- `AsyncAsyncWrite::write` (lines 99-108): send the whole slice as one
buffer via `batch_send_all`, map `NoStreamLeft` to a broken-pipe error, and
on success return the full input length. -/
def Sender.write (sd : Sender) (buf : List Nat) : Except IoErr Nat × Sender :=
  match batchSendAll sd buf with
  | (.ok _, sd', _) => (.ok buf.length, sd')
  | (.error _, sd', _) => (.error .brokenPipe, sd')

/-- The flush fan-out over the pooled streams, front to back, stopping at the
first failure (`for stream in &mut self.streams { stream.flush().await?; }`).
A successful flush increments the stream's flush count; streams after the
first failure are left untouched. -/
def flushList : List OStream → Except IoErr Unit × List OStream
  | [] => (.ok (), [])
  | s :: rest =>
      if s.flushFail then (.error (.streamErr s.sid), s :: rest)
      else
        let out := flushList rest
        (out.1, { s with flushes := s.flushes + 1 } :: out.2)

/-- The shutdown fan-out, same pattern as flush. -/
def shutdownList : List OStream → Except IoErr Unit × List OStream
  | [] => (.ok (), [])
  | s :: rest =>
      if s.shutFail then (.error (.streamErr s.sid), s :: rest)
      else
        let out := shutdownList rest
        (out.1, { s with shutdowns := s.shutdowns + 1 } :: out.2)

/-- `AsyncAsyncWrite::flush` (lines 110-115). -/
def Sender.flush (sd : Sender) : Except IoErr Unit × Sender :=
  let out := flushList sd.streams
  (out.1, ⟨out.2, sd.next⟩)

/-- `AsyncAsyncWrite::shutdown` (lines 117-122). -/
def Sender.shutdown (sd : Sender) : Except IoErr Unit × Sender :=
  let out := shutdownList sd.streams
  (out.1, ⟨out.2, sd.next⟩)

/-- The ids of the streams of a pool. -/
def poolIds (pool : List OStream) : List Nat :=
  pool.map (fun s => s.sid)

/-- Later rounds of the same sender instance: run one `batchSend` per given
segment buffer, threading the sender through. -/
def iterRounds (sd : Sender) : List SendStreamBuf → Sender
  | [] => sd
  | sb :: sbs => iterRounds (batchSend sd sb).2.1 sbs

/-- All `(start offset, payload)` pairs delivered to the streams of a pool. -/
def allWritten (pool : List OStream) : List (Nat × List Nat) :=
  (pool.map (fun s => s.written)).flatten

/-- The `(start offset, payload)` pairs of the currently-unsent segments. -/
def unsentPairs (sb : SendStreamBuf) : List (Nat × List Nat) :=
  (sb.segs.filter (fun g => !g.sent)).map (fun g => (g.start, g.payload))

/-- Whether some segment starting at `seq` has been marked sent. -/
def SendStreamBuf.isSent (sb : SendStreamBuf) (seq : Nat) : Bool :=
  sb.segs.any (fun g => g.start = seq && g.sent)

/-- The observable effect of one successful flush on a stream. -/
def flushBump (s : OStream) : OStream :=
  { s with flushes := s.flushes + 1 }

/-- The observable effect of one successful shutdown on a stream. -/
def shutBump (s : OStream) : OStream :=
  { s with shutdowns := s.shutdowns + 1 }

/-- Insert an offset-tagged payload into a list sorted by start offset. -/
def insertByStart (p : Nat × List Nat) : List (Nat × List Nat) →
    List (Nat × List Nat)
  | [] => [p]
  | q :: rest =>
      if p.1 ≤ q.1 then p :: q :: rest else q :: insertByStart p rest

/-- Order delivered segments by their start offsets (insertion sort). -/
def sortByStart : List (Nat × List Nat) → List (Nat × List Nat)
  | [] => []
  | p :: rest => insertByStart p (sortByStart rest)

/-! ## Basic lemmas about tasks and reconciliation -/

theorem streamSend_error {seg : Segment} {s : OStream} {e : Nat}
    (h : streamSend seg s = .error e) : e = s.sid := by
  unfold streamSend at h
  split at h
  · simp only [Except.error.injEq] at h
    exact h.symm
  · simp at h

theorem streamSend_ok {seg : Segment} {s : OStream} {q : Nat} {st : OStream}
    (h : streamSend seg s = .ok (q, st)) :
    q = seg.start ∧ st.sid = s.sid ∧
      st.written = s.written ++ [(seg.start, seg.payload)] ∧
      st.failPlan = s.failPlan.tail := by
  unfold streamSend at h
  split at h
  · simp at h
  · simp only [Except.ok.injEq, Prod.mk.injEq] at h
    obtain ⟨h1, h2⟩ := h
    subst h1
    subst h2
    exact ⟨rfl, rfl, rfl, rfl⟩

theorem oksOf_nil : oksOf [] = [] := rfl

theorem errsOf_nil : errsOf [] = [] := rfl

theorem oksOf_cons (r : Except Nat (Nat × OStream))
    (rest : List (Except Nat (Nat × OStream))) :
    oksOf (r :: rest) =
      match r with | .ok p => p :: oksOf rest | .error _ => oksOf rest := by
  cases r <;> simp [oksOf, List.filterMap_cons]

theorem errsOf_cons (r : Except Nat (Nat × OStream))
    (rest : List (Except Nat (Nat × OStream))) :
    errsOf (r :: rest) =
      match r with | .ok _ => errsOf rest | .error e => e :: errsOf rest := by
  cases r <;> simp [errsOf, List.filterMap_cons]

theorem okErr_length (results : List (Except Nat (Nat × OStream))) :
    (oksOf results).length + (errsOf results).length = results.length := by
  induction results with
  | nil => rfl
  | cons r rest ih =>
      cases r <;> simp [oksOf_cons, errsOf_cons, List.length_cons] <;>
        simp [oksOf, errsOf] at ih ⊢ <;> omega

theorem markAll_nil (sb : SendStreamBuf) : markAll sb [] = sb := rfl

theorem markAll_cons (sb : SendStreamBuf) (q : Nat) (qs : List Nat) :
    markAll sb (q :: qs) = markAll (sb.markAsSent q) qs := rfl

theorem reconcile_eq (results : List (Except Nat (Nat × OStream)))
    (pool : List OStream) (sb : SendStreamBuf) (errs : List Nat) :
    reconcile results pool sb errs =
      (pool ++ (oksOf results).map Prod.snd,
       markAll sb ((oksOf results).map Prod.fst),
       errs ++ errsOf results) := by
  induction results generalizing pool sb errs with
  | nil => simp [reconcile, oksOf_nil, errsOf_nil, markAll_nil]
  | cons r rest ih =>
      cases r with
      | ok p =>
          cases p with
          | mk seq st =>
              simp only [reconcile, oksOf_cons, errsOf_cons, ih, List.map_cons,
                markAll_cons, List.append_assoc, List.singleton_append]
      | error e =>
          simp only [reconcile, oksOf_cons, errsOf_cons, ih, List.append_assoc,
            List.singleton_append]

theorem batchSend_empty {sd : Sender} (sb : SendStreamBuf)
    (h : sd.streams = []) : batchSend sd sb = (.error .noStreamLeft, sd, sb) := by
  simp [batchSend, h]

theorem batchSend_eq (sd : Sender) (sb : SendStreamBuf) (h : sd.streams ≠ []) :
    batchSend sd sb =
      ((if errsOf (roundResults sd sb) = [] then .ok ()
        else .error (.io (errsOf (roundResults sd sb)))),
       ⟨poolRest sd sb ++ (oksOf (roundResults sd sb)).map Prod.snd, sd.next⟩,
       markAll sb ((oksOf (roundResults sd sb)).map Prod.fst)) := by
  unfold batchSend
  rw [if_neg (by simpa [List.isEmpty_iff] using h)]
  rw [reconcile_eq]
  by_cases he : errsOf (roundResults sd sb) = [] <;> simp [he]

/-! ## Marking, zipping and stream-identity lemmas -/

theorem markAll_segs (seqs : List Nat) (sb : SendStreamBuf) :
    (markAll sb seqs).segs =
      sb.segs.map (fun g =>
        ⟨g.start, g.payload, g.sent || seqs.any (fun q => g.start == q)⟩) := by
  induction seqs generalizing sb with
  | nil =>
      show sb.segs = _
      simp
  | cons q qs ih =>
      rw [markAll_cons, ih]
      show (sb.segs.map _).map _ = _
      rw [List.map_map]
      apply List.map_congr_left
      intro g _
      by_cases hg : g.start = q
      · simp [hg, Function.comp]
      · have hb : (g.start == q) = false := by simp [hg]
        simp [hg, Function.comp, hb]

theorem zip_map_fst {α β : Type} (a : List α) (b : List β) :
    (a.zip b).map Prod.fst = a.take b.length := by
  induction a generalizing b with
  | nil => simp
  | cons x xs ih => cases b <;> simp [ih]

theorem zip_map_snd {α β : Type} (a : List α) (b : List β) :
    (a.zip b).map Prod.snd = b.take a.length := by
  induction a generalizing b with
  | nil => simp
  | cons x xs ih => cases b <;> simp [ih]

theorem errsOf_tasks_subset (pairs : List (Segment × OStream)) :
    ∀ e ∈ errsOf (pairs.map (fun p => streamSend p.1 p.2)),
      e ∈ pairs.map (fun p => p.2.sid) := by
  induction pairs with
  | nil => simp [errsOf_nil]
  | cons p rest ih =>
      intro e he
      rw [List.map_cons] at he
      cases hc : streamSend p.1 p.2 with
      | ok v =>
          rw [hc, errsOf_cons] at he
          exact List.mem_cons_of_mem _ (ih e he)
      | error e0 =>
          rw [hc, errsOf_cons] at he
          rcases List.mem_cons.mp he with h | h
          · subst h
            rw [streamSend_error hc]
            exact List.mem_cons_self _ _
          · exact List.mem_cons_of_mem _ (ih e h)

theorem oks_sid_subset (pairs : List (Segment × OStream)) :
    ∀ st ∈ (oksOf (pairs.map (fun p => streamSend p.1 p.2))).map Prod.snd,
      st.sid ∈ pairs.map (fun p => p.2.sid) := by
  induction pairs with
  | nil => simp [oksOf_nil]
  | cons p rest ih =>
      intro st hst
      rw [List.map_cons] at hst
      cases hc : streamSend p.1 p.2 with
      | ok v =>
          rw [hc, oksOf_cons] at hst
          rcases List.mem_cons.mp hst with h | h
          · subst h
            obtain ⟨v1, v2⟩ := v
            obtain ⟨-, hsid, -, -⟩ := streamSend_ok hc
            rw [hsid]
            exact List.mem_cons_self _ _
          · exact List.mem_cons_of_mem _ (ih st h)
      | error e0 =>
          rw [hc, oksOf_cons] at hst
          exact List.mem_cons_of_mem _ (ih st hst)

theorem errs_oks_disjoint (pairs : List (Segment × OStream))
    (hnp : (pairs.map (fun p => p.2.sid)).Nodup) :
    ∀ e ∈ errsOf (pairs.map (fun p => streamSend p.1 p.2)),
      ∀ st ∈ (oksOf (pairs.map (fun p => streamSend p.1 p.2))).map Prod.snd,
        e ≠ st.sid := by
  induction pairs with
  | nil => simp [errsOf_nil]
  | cons p rest ih =>
      rw [List.map_cons] at hnp
      rw [List.nodup_cons] at hnp
      obtain ⟨hhead, hrest⟩ := hnp
      intro e he st hst
      rw [List.map_cons] at he hst
      cases hc : streamSend p.1 p.2 with
      | ok v =>
          rw [hc, errsOf_cons] at he
          rw [hc, oksOf_cons, List.map_cons] at hst
          rcases List.mem_cons.mp hst with h | h
          · subst h
            obtain ⟨v1, v2⟩ := v
            obtain ⟨-, hsid, -, -⟩ := streamSend_ok hc
            intro hcontra
            apply hhead
            rw [← hsid]
            rw [← hcontra]
            exact errsOf_tasks_subset rest _ he
          · exact ih hrest e he st h
      | error e0 =>
          rw [hc, errsOf_cons] at he
          rw [hc, oksOf_cons] at hst
          rcases List.mem_cons.mp he with h | h
          · subst h
            have h1 := streamSend_error hc
            subst h1
            intro hcontra
            rw [hcontra] at hhead
            exact hhead (oks_sid_subset rest st hst)
          · exact ih hrest e h st hst

/-! ## Pool accounting across a round -/

theorem roundResults_length (sd : Sender) (sb : SendStreamBuf) :
    (roundResults sd sb).length =
      min sb.iterUnsentSegments.length sd.streams.length := by
  simp [roundResults]

theorem roundResults_empty_pool (sd : Sender) (sb : SendStreamBuf)
    (h : sd.streams = []) : roundResults sd sb = [] := by
  simp [roundResults, h]

theorem batchSend_pool_length (sd : Sender) (sb : SendStreamBuf) :
    (batchSend sd sb).2.1.streams.length =
      sd.streams.length - (errsOf (roundResults sd sb)).length := by
  by_cases h : sd.streams = []
  · rw [batchSend_empty sb h, roundResults_empty_pool sd sb h]
    simp [errsOf_nil]
  · rw [batchSend_eq sd sb h]
    have hcnt := okErr_length (roundResults sd sb)
    rw [roundResults_length] at hcnt
    show (poolRest sd sb ++ _).length = _
    simp only [poolRest, List.length_append, List.length_map, List.length_drop]
    omega

theorem dispatch_sids (sd : Sender) (sb : SendStreamBuf) :
    ((sb.iterUnsentSegments.zip sd.streams).map (fun p => p.2.sid)) =
      (sd.streams.take sb.iterUnsentSegments.length).map
        (fun s => s.sid) := by
  have : (fun p : Segment × OStream => p.2.sid) =
      (fun s : OStream => s.sid) ∘ Prod.snd := rfl
  rw [this, ← List.map_map, zip_map_snd]

theorem batchSend_poolIds_subset (sd : Sender) (sb : SendStreamBuf) :
    ∀ i ∈ poolIds (batchSend sd sb).2.1.streams, i ∈ poolIds sd.streams := by
  by_cases h : sd.streams = []
  · rw [batchSend_empty sb h]
    exact fun i hi => hi
  · rw [batchSend_eq sd sb h]
    intro i hi
    simp only [poolIds, List.map_append, List.mem_append] at hi
    rcases hi with hi | hi
    · simp only [poolRest] at hi
      obtain ⟨s, hs, rfl⟩ := List.mem_map.mp hi
      exact List.mem_map.mpr ⟨s, List.drop_subset _ _ hs, rfl⟩
    · obtain ⟨st, hst, rfl⟩ := List.mem_map.mp hi
      have := oks_sid_subset (sb.iterUnsentSegments.zip sd.streams) st
        (by simpa [roundResults] using hst)
      rw [dispatch_sids] at this
      obtain ⟨s, hs, hsid⟩ := List.mem_map.mp this
      exact List.mem_map.mpr ⟨s, List.take_subset _ _ hs, hsid⟩

theorem iterRounds_cons (sd : Sender) (sb : SendStreamBuf)
    (sbs : List SendStreamBuf) :
    iterRounds sd (sb :: sbs) = iterRounds (batchSend sd sb).2.1 sbs := rfl

theorem iterRounds_not_mem (sbs : List SendStreamBuf) (sd : Sender) (e : Nat)
    (he : e ∉ poolIds sd.streams) :
    e ∉ poolIds (iterRounds sd sbs).streams := by
  induction sbs generalizing sd with
  | nil => exact he
  | cons sb sbs ih =>
      rw [iterRounds_cons]
      exact ih _ (fun hmem => he (batchSend_poolIds_subset sd sb e hmem))

theorem batchSend_err_not_mem (sd : Sender) (sb : SendStreamBuf)
    (hnd : (poolIds sd.streams).Nodup) :
    ∀ e ∈ errsOf (roundResults sd sb),
      e ∉ poolIds (batchSend sd sb).2.1.streams := by
  by_cases h : sd.streams = []
  · rw [roundResults_empty_pool sd sb h]
    simp [errsOf_nil]
  · intro e he
    have hsplit := (List.take_append_drop sb.iterUnsentSegments.length
      sd.streams).symm
    have hnd2 : ((sd.streams.take sb.iterUnsentSegments.length).map
        (fun s => s.sid) ++ (sd.streams.drop sb.iterUnsentSegments.length).map
        (fun s => s.sid)).Nodup := by
      rw [← List.map_append, ← hsplit]
      exact hnd
    rw [List.nodup_append] at hnd2
    obtain ⟨hndtake, hnddrop, hdisj⟩ := hnd2
    have hetake : e ∈ (sd.streams.take sb.iterUnsentSegments.length).map
        (fun s => s.sid) := by
      have := errsOf_tasks_subset (sb.iterUnsentSegments.zip sd.streams) e
        (by simpa [roundResults] using he)
      rwa [dispatch_sids] at this
    rw [batchSend_eq sd sb h]
    simp only [poolIds, List.map_append, List.mem_append]
    rintro (hi | hi)
    · exact hdisj hetake (by simpa [poolRest] using hi)
    · obtain ⟨st, hst, hsid⟩ := List.mem_map.mp hi
      have hne := errs_oks_disjoint (sb.iterUnsentSegments.zip sd.streams)
        (by rw [dispatch_sids]; exact hndtake) e
        (by simpa [roundResults] using he) st
        (by simpa [roundResults] using hst)
      exact hne hsid.symm

/-! ## Lemmas about the retry loop -/

theorem batchSend_next (sd : Sender) (sb : SendStreamBuf) :
    (batchSend sd sb).2.1.next = sd.next := by
  by_cases h : sd.streams = []
  · rw [batchSend_empty sb h]
  · rw [batchSend_eq sd sb h]

theorem sendLoop_next (fuel : Nat) :
    ∀ sd sb r sd' sb', sendLoop fuel sd sb = some (r, sd', sb') →
      sd'.next = sd.next := by
  induction fuel with
  | zero =>
      intro sd sb r sd' sb' h
      simp [sendLoop] at h
  | succ fuel ih =>
      intro sd sb r sd' sb' h
      simp only [sendLoop] at h
      rcases hb : batchSend sd sb with ⟨res, sd1, sb1⟩
      rw [hb] at h
      have hnext : sd1.next = sd.next := by
        have := batchSend_next sd sb
        rw [hb] at this
        exact this
      cases res with
      | error err =>
          cases err with
          | noStreamLeft =>
              simp only [Option.some.injEq, Prod.mk.injEq] at h
              rw [← h.2.1, hnext]
          | io es =>
              rw [← hnext]
              exact ih sd1 sb1 r sd' sb' h
      | ok u =>
          dsimp only at h
          by_cases hd : sb1.done = true
          · rw [if_pos hd] at h
            simp only [Option.some.injEq, Prod.mk.injEq] at h
            rw [← h.2.1, hnext]
          · rw [if_neg hd] at h
            rw [← hnext]
            exact ih sd1 sb1 r sd' sb' h

theorem sendLoop_ok_done (fuel : Nat) :
    ∀ sd sb sd' sb', sendLoop fuel sd sb = some (.ok (), sd', sb') →
      sb'.done = true := by
  induction fuel with
  | zero =>
      intro sd sb sd' sb' h
      simp [sendLoop] at h
  | succ fuel ih =>
      intro sd sb sd' sb' h
      simp only [sendLoop] at h
      rcases hb : batchSend sd sb with ⟨res, sd1, sb1⟩
      rw [hb] at h
      cases res with
      | error err =>
          cases err with
          | noStreamLeft => simp at h
          | io es => exact ih sd1 sb1 sd' sb' h
      | ok u =>
          dsimp only at h
          by_cases hd : sb1.done = true
          · rw [if_pos hd] at h
            simp only [Option.some.injEq, Prod.mk.injEq] at h
            rw [← h.2.2]
            exact hd
          · rw [if_neg hd] at h
            exact ih sd1 sb1 sd' sb' h

theorem sendLoop_io_step (fuel : Nat) (sd : Sender) (sb : SendStreamBuf)
    (errs : List Nat) (sd' : Sender) (sb' : SendStreamBuf)
    (h : batchSend sd sb = (.error (.io errs), sd', sb')) :
    sendLoop (fuel + 1) sd sb = sendLoop fuel sd' sb' := by
  simp only [sendLoop]
  rw [h]

theorem batchSendAll_empty (sd : Sender) (data : List Nat)
    (h : sd.streams = []) :
    (batchSendAll sd data).1 = .error .mk ∧ (batchSendAll sd data).2.1 = sd := by
  have hstep : ∀ sb : SendStreamBuf,
      sendLoop (loopFuel sd sb) sd sb = some (.error .mk, sd, sb) := by
    intro sb
    show sendLoop (unsentCount sb + sd.streams.length + 1) sd sb = _
    simp only [sendLoop]
    rw [batchSend_empty sb h]
  unfold batchSendAll
  dsimp only
  rw [hstep]
  exact ⟨rfl, rfl⟩

theorem batchSendAll_cases (sd : Sender) (data : List Nat) :
    ((batchSendAll sd data).1 = .ok () →
      (batchSendAll sd data).2.1.next = (sd.next + data.length) % U64MOD ∧
      (batchSendAll sd data).2.2.done = true) ∧
    ((batchSendAll sd data).1 ≠ .ok () →
      (batchSendAll sd data).2.1.next = sd.next) := by
  unfold batchSendAll
  dsimp only
  rcases hl : sendLoop (loopFuel sd ((SendStreamBuf.new data sd.next).splitFirstUnsentSegment sd.streams.length)) sd
      ((SendStreamBuf.new data sd.next).splitFirstUnsentSegment sd.streams.length)
    with - | ⟨r, sd', sb'⟩
  · exact ⟨fun habs => absurd habs (by simp), fun _ => rfl⟩
  · cases r with
    | ok u =>
        cases u
        dsimp only
        refine ⟨fun _ => ⟨?_, sendLoop_ok_done _ _ _ _ _ hl⟩,
          fun habs => absurd rfl habs⟩
        rw [sendLoop_next _ _ _ _ _ _ hl]
    | error e =>
        dsimp only
        exact ⟨fun habs => absurd habs (by simp),
          fun _ => sendLoop_next _ _ _ _ _ _ hl⟩

/-! ## Flush and shutdown fan-out lemmas -/

theorem flushList_ok (l : List OStream) (h : ∀ x ∈ l, x.flushFail = false) :
    flushList l = (.ok (), l.map flushBump) := by
  induction l with
  | nil => rfl
  | cons s rest ih =>
      have hs : s.flushFail = false := h s (List.mem_cons_self _ _)
      simp only [flushList, hs, Bool.false_eq_true, if_false,
        ih (fun x hx => h x (List.mem_cons_of_mem _ hx)), List.map_cons]
      simp [flushBump, hs]

theorem flushList_err (a : List OStream) (s : OStream) (b : List OStream)
    (ha : ∀ x ∈ a, x.flushFail = false) (hs : s.flushFail = true) :
    flushList (a ++ s :: b) =
      (.error (.streamErr s.sid), a.map flushBump ++ s :: b) := by
  induction a with
  | nil => simp [flushList, hs]
  | cons x a' ih =>
      have hx : x.flushFail = false := ha x (List.mem_cons_self _ _)
      simp only [List.cons_append, flushList, hx, Bool.false_eq_true, if_false]
      rw [show a'.append (s :: b) = a' ++ (s :: b) from rfl,
        ih (fun y hy => ha y (List.mem_cons_of_mem _ hy))]
      simp [flushBump, hx]

theorem shutdownList_ok (l : List OStream) (h : ∀ x ∈ l, x.shutFail = false) :
    shutdownList l = (.ok (), l.map shutBump) := by
  induction l with
  | nil => rfl
  | cons s rest ih =>
      have hs : s.shutFail = false := h s (List.mem_cons_self _ _)
      simp only [shutdownList, hs, Bool.false_eq_true, if_false,
        ih (fun x hx => h x (List.mem_cons_of_mem _ hx)), List.map_cons]
      simp [shutBump, hs]

theorem shutdownList_err (a : List OStream) (s : OStream) (b : List OStream)
    (ha : ∀ x ∈ a, x.shutFail = false) (hs : s.shutFail = true) :
    shutdownList (a ++ s :: b) =
      (.error (.streamErr s.sid), a.map shutBump ++ s :: b) := by
  induction a with
  | nil => simp [shutdownList, hs]
  | cons x a' ih =>
      have hx : x.shutFail = false := ha x (List.mem_cons_self _ _)
      simp only [List.cons_append, shutdownList, hx, Bool.false_eq_true, if_false]
      rw [show a'.append (s :: b) = a' ++ (s :: b) from rfl,
        ih (fun y hy => ha y (List.mem_cons_of_mem _ hy))]
      simp [shutBump, hx]

/-! ## Chunking and completion lemmas -/

theorem chunkSegs_flatten (c : Nat) (hc : 1 ≤ c) :
    ∀ (fuel : Nat) (data : List Nat), data.length ≤ fuel → ∀ off,
      ((chunkSegs c fuel off data).map (fun g => g.payload)).flatten = data := by
  intro fuel
  induction fuel with
  | zero =>
      intro data hlen off
      rw [List.length_eq_zero.mp (Nat.le_zero.mp hlen)]
      rfl
  | succ fuel ih =>
      intro data hlen off
      cases data with
      | nil => rfl
      | cons b bs =>
          rw [chunkSegs, List.map_cons, List.flatten_cons]
          rw [ih ((b :: bs).drop c) (by simp at hlen ⊢; omega) (off + c)]
          exact List.take_append_drop c (b :: bs)

theorem chunkSegs_unsent (c : Nat) :
    ∀ (fuel : Nat) (off : Nat) (data : List Nat),
      ∀ g ∈ chunkSegs c fuel off data, g.sent = false := by
  intro fuel
  induction fuel with
  | zero =>
      intro off data g hg
      simp [chunkSegs] at hg
  | succ fuel ih =>
      intro off data g hg
      cases data with
      | nil => simp [chunkSegs] at hg
      | cons b bs =>
          rw [chunkSegs] at hg
          rcases List.mem_cons.mp hg with h | h
          · rw [h]
          · exact ih _ _ g h

theorem chunkSegs_start_lb (c : Nat) :
    ∀ (fuel : Nat) (off : Nat) (data : List Nat),
      ∀ g ∈ chunkSegs c fuel off data, off ≤ g.start := by
  intro fuel
  induction fuel with
  | zero =>
      intro off data g hg
      simp [chunkSegs] at hg
  | succ fuel ih =>
      intro off data g hg
      cases data with
      | nil => simp [chunkSegs] at hg
      | cons b bs =>
          rw [chunkSegs] at hg
          rcases List.mem_cons.mp hg with h | h
          · rw [h]
          · exact Nat.le_trans (Nat.le_add_right off c) (ih _ _ g h)

theorem chunkSegs_pairwise (c : Nat) (hc : 1 ≤ c) :
    ∀ (fuel : Nat) (off : Nat) (data : List Nat),
      (chunkSegs c fuel off data).Pairwise
        (fun a b => a.start < b.start) := by
  intro fuel
  induction fuel with
  | zero =>
      intro off data
      simp [chunkSegs]
  | succ fuel ih =>
      intro off data
      cases data with
      | nil => simp [chunkSegs]
      | cons b bs =>
          rw [chunkSegs]
          refine List.Pairwise.cons ?_ (ih _ _)
          intro g hg
          have := chunkSegs_start_lb c fuel (off + c) _ g hg
          show off < g.start
          omega

theorem done_iff_unsent_nil (sb : SendStreamBuf) :
    sb.done = true ↔ unsentPairs sb = [] := by
  simp only [SendStreamBuf.done, unsentPairs, List.all_eq_true,
    List.map_eq_nil_iff, List.filter_eq_nil_iff]
  constructor
  · intro h g hg
    simp [h g hg]
  · intro h g hg
    have := h g hg
    simp at this
    exact this

theorem unsentCount_eq (sb : SendStreamBuf) :
    unsentCount sb = (unsentPairs sb).length := by
  simp [unsentCount, unsentPairs]

/-! ## Sorting by start offset -/

theorem insertByStart_perm (p : Nat × List Nat) (l : List (Nat × List Nat)) :
    List.Perm (insertByStart p l) (p :: l) := by
  induction l with
  | nil => exact List.Perm.refl _
  | cons q rest ih =>
      rw [insertByStart]
      by_cases h : p.1 ≤ q.1
      · rw [if_pos h]
      · rw [if_neg h]
        exact (ih.cons q).trans (List.Perm.swap p q rest)

theorem sortByStart_perm (l : List (Nat × List Nat)) :
    List.Perm (sortByStart l) l := by
  induction l with
  | nil => exact List.Perm.refl _
  | cons p rest ih =>
      exact (insertByStart_perm p (sortByStart rest)).trans (ih.cons p)

theorem insertByStart_sorted (p : Nat × List Nat) (l : List (Nat × List Nat))
    (hl : l.Pairwise (fun a b => a.1 ≤ b.1)) :
    (insertByStart p l).Pairwise (fun a b => a.1 ≤ b.1) := by
  induction l with
  | nil => simp [insertByStart]
  | cons q rest ih =>
      rw [List.pairwise_cons] at hl
      obtain ⟨hq, hrest⟩ := hl
      rw [insertByStart]
      by_cases h : p.1 ≤ q.1
      · rw [if_pos h]
        refine List.Pairwise.cons ?_ (List.Pairwise.cons hq hrest)
        intro b hb
        rcases List.mem_cons.mp hb with hb | hb
        · rw [hb]; exact h
        · exact Nat.le_trans h (hq b hb)
      · rw [if_neg h]
        refine List.Pairwise.cons ?_ (ih hrest)
        intro b hb
        have hmem := (insertByStart_perm p rest).mem_iff.mp hb
        rcases List.mem_cons.mp hmem with hb' | hb'
        · rw [hb']
          omega
        · exact hq b hb'

theorem sortByStart_sorted (l : List (Nat × List Nat)) :
    (sortByStart l).Pairwise (fun a b => a.1 ≤ b.1) := by
  induction l with
  | nil => simp [sortByStart]
  | cons p rest ih => exact insertByStart_sorted p (sortByStart rest) ih

theorem perm_sorted_unique (l m : List (Nat × List Nat))
    (hperm : List.Perm l m)
    (hl : l.Pairwise (fun a b => a.1 ≤ b.1))
    (hm : m.Pairwise (fun a b => a.1 < b.1)) : l = m := by
  letI : IsAntisymm (Nat × List Nat) (fun a b => a.1 < b.1) :=
    ⟨fun a b h1 h2 => absurd (Nat.lt_trans h1 h2) (Nat.lt_irrefl _)⟩
  have hmnd : (m.map Prod.fst).Nodup :=
    List.pairwise_map.mpr (hm.imp (fun h => Nat.ne_of_lt h))
  have hlnd : (l.map Prod.fst).Nodup :=
    ((hperm.map Prod.fst).nodup_iff).mpr hmnd
  have hne : l.Pairwise (fun a b => a.1 ≠ b.1) := List.pairwise_map.mp hlnd
  have hl2 : l.Pairwise (fun a b => a.1 < b.1) :=
    (hl.and hne).imp (fun hab => Nat.lt_of_le_of_ne hab.1 hab.2)
  exact List.eq_of_perm_of_sorted hperm hl2 hm

/-! ## Marking dispatched segments -/

theorem unsentPairs_markAll (sb : SendStreamBuf) (m : Nat)
    (hnd : ((unsentPairs sb).map Prod.fst).Nodup) :
    unsentPairs (markAll sb (((unsentPairs sb).take m).map Prod.fst)) =
      (unsentPairs sb).drop m := by
  set S := ((unsentPairs sb).take m).map Prod.fst with hSdef
  set u := sb.segs.filter (fun g => !g.sent) with hu
  have hS : S = (u.take m).map (fun g => g.start) := by
    rw [hSdef, unsentPairs, ← hu, ← List.map_take, List.map_map]
    rfl
  have hndu : (u.map (fun g => g.start)).Nodup := by
    rw [unsentPairs, ← hu, List.map_map] at hnd
    exact hnd
  have hstep1 : unsentPairs (markAll sb S) =
      (sb.segs.filter (fun g => !((g.sent ||
        S.any (fun q => g.start == q))))).map
        (fun g => (g.start, g.payload)) := by
    rw [unsentPairs, markAll_segs, List.filter_map, List.map_map]
    rfl
  have hstep2 : sb.segs.filter (fun g => !((g.sent ||
      S.any (fun q => g.start == q)))) =
      u.filter (fun g => !(S.any (fun q => g.start == q))) := by
    rw [hu, List.filter_filter]
    apply List.filter_congr
    intro g _
    simp [Bool.not_or, Bool.and_comm]
  have hA : (u.take m).filter
      (fun g => !(S.any (fun q => g.start == q))) = [] := by
    rw [List.filter_eq_nil_iff]
    intro g hg
    simp only [Bool.not_eq_true', Bool.not_eq_false, List.any_eq_true]
    exact ⟨g.start, by rw [hS]; exact List.mem_map.mpr ⟨g, hg, rfl⟩, by simp⟩
  have hdisj : ∀ g ∈ u.drop m, g.start ∉ (u.take m).map
      (fun g => g.start) := by
    have hsplit : u.map (fun g => g.start) =
        (u.take m).map (fun g => g.start) ++
        (u.drop m).map (fun g => g.start) := by
      rw [← List.map_append, List.take_append_drop]
    rw [hsplit, List.nodup_append] at hndu
    intro g hg hmem
    exact hndu.2.2 hmem (List.mem_map.mpr ⟨g, hg, rfl⟩)
  have hB : (u.drop m).filter
      (fun g => !(S.any (fun q => g.start == q))) = u.drop m := by
    rw [List.filter_eq_self]
    intro g hg
    simp only [Bool.not_eq_true', List.any_eq_false]
    intro q hq
    simp only [beq_iff_eq]
    intro hqe
    rw [hS] at hq
    exact hdisj g hg (hqe ▸ hq)
  rw [hstep1, hstep2]
  conv_lhs => rw [← List.take_append_drop m u]
  rw [List.filter_append, hA, hB, List.nil_append]
  rw [unsentPairs, ← hu, ← List.map_drop]

/-! ## A round in which every task succeeds -/

theorem tasks_all_ok (pairs : List (Segment × OStream))
    (h : ∀ p ∈ pairs, p.2.failPlan = []) :
    pairs.map (fun p => streamSend p.1 p.2) =
      pairs.map (fun p => .ok (p.1.start,
        { p.2 with failPlan := [],
                   written := p.2.written ++ [(p.1.start, p.1.payload)] })) := by
  apply List.map_congr_left
  intro p hp
  have hfp := h p hp
  unfold streamSend
  rw [hfp]
  rfl

theorem errsOf_map_ok {α : Type} (l : List α) (f : α → Nat × OStream) :
    errsOf (l.map (fun x => .ok (f x))) = [] := by
  induction l with
  | nil => rfl
  | cons x xs ih => rw [List.map_cons, errsOf_cons]; exact ih

theorem oksOf_map_ok {α : Type} (l : List α) (f : α → Nat × OStream) :
    oksOf (l.map (fun x => .ok (f x))) = l.map f := by
  induction l with
  | nil => rfl
  | cons x xs ih => rw [List.map_cons, oksOf_cons, ih, List.map_cons]

theorem allWritten_append (a b : List OStream) :
    allWritten (a ++ b) = allWritten a ++ allWritten b := by
  rw [allWritten, List.map_append, List.flatten_append]
  rfl

theorem allWritten_okstreams (pairs : List (Segment × OStream)) :
    List.Perm
      (allWritten (pairs.map (fun p =>
        ({ p.2 with failPlan := [],
                    written := p.2.written ++ [(p.1.start, p.1.payload)] } :
          OStream))))
      (allWritten (pairs.map Prod.snd) ++
        pairs.map (fun p => (p.1.start, p.1.payload))) := by
  induction pairs with
  | nil => exact List.Perm.refl _
  | cons p rest ih =>
      simp only [List.map_cons, allWritten, List.flatten_cons]
      refine List.Perm.trans (List.Perm.append_left _ ih) ?_
      show List.Perm
        ((p.2.written ++ [(p.1.start, p.1.payload)]) ++ (_ ++ _))
        ((p.2.written ++ _) ++ ((p.1.start, p.1.payload) :: _))
      rw [List.append_assoc, List.append_assoc]
      refine List.Perm.append_left _ ?_
      rw [List.singleton_append]
      exact (List.perm_middle).symm

theorem perm_shuffle {α : Type} (a b c d : List α) :
    List.Perm ((a ++ (b ++ c)) ++ d) ((b ++ a) ++ (c ++ d)) := by
  rw [← Multiset.coe_eq_coe]
  simp only [← Multiset.coe_add]
  ac_rfl

theorem iterUnsent_pairs (sb : SendStreamBuf) :
    sb.iterUnsentSegments.map (fun seg => (seg.start, seg.payload)) =
      unsentPairs sb := by
  rw [SendStreamBuf.iterUnsentSegments, unsentPairs, List.map_map]
  rfl

theorem iterUnsent_starts (sb : SendStreamBuf) :
    sb.iterUnsentSegments.map (fun seg => seg.start) =
      (unsentPairs sb).map Prod.fst := by
  rw [SendStreamBuf.iterUnsentSegments, unsentPairs, List.map_map,
    List.map_map]
  rfl

theorem batchSend_ok_step (sd : Sender) (sb : SendStreamBuf)
    (W : List (Nat × List Nat))
    (hne : sd.streams ≠ [])
    (hfp : ∀ s ∈ sd.streams, s.failPlan = [])
    (hnd : ((unsentPairs sb).map Prod.fst).Nodup)
    (hperm : List.Perm (allWritten sd.streams ++ unsentPairs sb) W) :
    (batchSend sd sb).1 = .ok () ∧
    (batchSend sd sb).2.1.streams.length = sd.streams.length ∧
    (∀ s ∈ (batchSend sd sb).2.1.streams, s.failPlan = []) ∧
    unsentPairs (batchSend sd sb).2.2 =
      (unsentPairs sb).drop sd.streams.length ∧
    ((unsentPairs (batchSend sd sb).2.2).map Prod.fst).Nodup ∧
    List.Perm (allWritten (batchSend sd sb).2.1.streams ++
      unsentPairs (batchSend sd sb).2.2) W := by
  have hok : ∀ p ∈ sb.iterUnsentSegments.zip sd.streams,
      p.2.failPlan = [] := by
    intro p hp
    exact hfp p.2 (List.of_mem_zip hp).2
  have htasks := tasks_all_ok _ hok
  have herr : errsOf (roundResults sd sb) = [] := by
    rw [roundResults, htasks]
    exact errsOf_map_ok _ _
  have hoks : oksOf (roundResults sd sb) =
      (sb.iterUnsentSegments.zip sd.streams).map (fun p => (p.1.start,
        ({ p.2 with failPlan := [],
                    written := p.2.written ++ [(p.1.start, p.1.payload)] } :
          OStream))) := by
    rw [roundResults, htasks]
    exact oksOf_map_ok _ _
  have hS : (oksOf (roundResults sd sb)).map Prod.fst =
      ((unsentPairs sb).take sd.streams.length).map Prod.fst := by
    rw [hoks, List.map_map]
    show (sb.iterUnsentSegments.zip sd.streams).map (fun p => p.1.start) = _
    have h2 : (fun p : Segment × OStream => p.1.start) =
        ((fun seg : Segment => seg.start) ∘ Prod.fst) := rfl
    rw [h2, ← List.map_map, zip_map_fst, List.map_take, iterUnsent_starts,
      ← List.map_take]
  have hsb2 : (batchSend sd sb).2.2 =
      markAll sb ((oksOf (roundResults sd sb)).map Prod.fst) := by
    rw [batchSend_eq sd sb hne]
  have hUP2 : unsentPairs (batchSend sd sb).2.2 =
      (unsentPairs sb).drop sd.streams.length := by
    rw [hsb2, hS]
    exact unsentPairs_markAll sb sd.streams.length hnd
  have hpool : (batchSend sd sb).2.1.streams =
      poolRest sd sb ++ (oksOf (roundResults sd sb)).map Prod.snd := by
    rw [batchSend_eq sd sb hne]
  refine ⟨?_, ?_, ?_, hUP2, ?_, ?_⟩
  · rw [batchSend_eq sd sb hne]
    show (if errsOf (roundResults sd sb) = [] then Except.ok () else _) = _
    rw [if_pos herr]
  · rw [batchSend_pool_length, herr]
    simp
  · rw [hpool]
    intro s hs
    rcases List.mem_append.mp hs with hs | hs
    · exact hfp s (List.drop_subset _ _ hs)
    · rw [hoks, List.map_map] at hs
      obtain ⟨p, hp, hps⟩ := List.mem_map.mp hs
      rw [← hps]
      rfl
  · rw [hUP2, List.map_drop]
    exact (List.drop_sublist _ _).nodup hnd
  · rw [hpool, hUP2, allWritten_append]
    have hoksperm : List.Perm
        (allWritten ((oksOf (roundResults sd sb)).map Prod.snd))
        (allWritten (sd.streams.take sb.iterUnsentSegments.length) ++
          ((unsentPairs sb).take sd.streams.length)) := by
      rw [hoks, List.map_map]
      refine (allWritten_okstreams _).trans ?_
      rw [zip_map_snd]
      have hseg : (sb.iterUnsentSegments.zip sd.streams).map
          (fun p => (p.1.start, p.1.payload)) =
          (unsentPairs sb).take sd.streams.length := by
        have h3 : (fun p : Segment × OStream => (p.1.start, p.1.payload)) =
            ((fun seg : Segment => (seg.start, seg.payload)) ∘ Prod.fst) := rfl
        rw [h3, ← List.map_map, zip_map_fst, List.map_take, iterUnsent_pairs]
      rw [hseg]
    refine List.Perm.trans (List.Perm.append_right _
      (List.Perm.append_left _ hoksperm)) ?_
    refine List.Perm.trans (perm_shuffle _ _ _ _) ?_
    simp only [poolRest]
    rw [← allWritten_append, List.take_append_drop, List.take_append_drop]
    exact hperm

theorem sendLoop_complete (fuel : Nat) :
    ∀ (sd : Sender) (sb : SendStreamBuf) (W : List (Nat × List Nat)),
      (unsentPairs sb).length < fuel →
      sd.streams ≠ [] →
      (∀ s ∈ sd.streams, s.failPlan = []) →
      ((unsentPairs sb).map Prod.fst).Nodup →
      List.Perm (allWritten sd.streams ++ unsentPairs sb) W →
      ∃ sd' sb', sendLoop fuel sd sb = some (.ok (), sd', sb') ∧
        List.Perm (allWritten sd'.streams) W := by
  induction fuel with
  | zero =>
      intro sd sb W hlt
      omega
  | succ fuel ih =>
      intro sd sb W hlt hne hfp hnd hperm
      obtain ⟨hres, hlen, hfp2, hUP2, hnd2, hperm2⟩ :=
        batchSend_ok_step sd sb W hne hfp hnd hperm
      rcases hb : batchSend sd sb with ⟨res, sd1, sb1⟩
      rw [hb] at hres hlen hfp2 hUP2 hnd2 hperm2
      have hres1 : res = .ok () := hres
      subst hres1
      have hlen1 : sd1.streams.length = sd.streams.length := hlen
      have hfp1 : ∀ s ∈ sd1.streams, s.failPlan = [] := hfp2
      have hUP1 : unsentPairs sb1 =
          (unsentPairs sb).drop sd.streams.length := hUP2
      have hnd1 : ((unsentPairs sb1).map Prod.fst).Nodup := hnd2
      have hperm1 : List.Perm (allWritten sd1.streams ++ unsentPairs sb1) W :=
        hperm2
      by_cases hd : sb1.done = true
      · refine ⟨sd1, sb1, ?_, ?_⟩
        · simp only [sendLoop]
          rw [hb]
          dsimp only
          rw [if_pos hd]
        · have h0 := (done_iff_unsent_nil sb1).mp hd
          rw [h0, List.append_nil] at hperm1
          exact hperm1
      · have hne1 : sd1.streams ≠ [] := by
          intro h0
          apply hne
          rw [h0] at hlen1
          exact List.length_eq_zero.mp hlen1.symm
        have hUPbne : unsentPairs sb ≠ [] := by
          intro h0
          apply hd
          apply (done_iff_unsent_nil sb1).mpr
          rw [hUP1, h0, List.drop_nil]
        have hlt1 : (unsentPairs sb1).length < fuel := by
          rw [hUP1, List.length_drop]
          have hN : 1 ≤ sd.streams.length := List.length_pos.mpr hne
          have hu : 1 ≤ (unsentPairs sb).length := List.length_pos.mpr hUPbne
          omega
        obtain ⟨sd', sb', hloop, hperm3⟩ :=
          ih sd1 sb1 W hlt1 hne1 hfp1 hnd1 hperm1
        refine ⟨sd', sb', ?_, hperm3⟩
        simp only [sendLoop]
        rw [hb]
        dsimp only
        rw [if_neg hd]
        exact hloop

theorem initial_buf (data : List Nat) (next : Nat) (N : Nat) (hN : 1 ≤ N) :
    ((unsentPairs ((SendStreamBuf.new data next).splitFirstUnsentSegment
      N)).map Prod.snd).flatten = data ∧
    (unsentPairs ((SendStreamBuf.new data next).splitFirstUnsentSegment
      N)).Pairwise (fun a b => a.1 < b.1) := by
  cases data with
  | nil =>
      constructor <;>
        simp [SendStreamBuf.new, SendStreamBuf.splitFirstUnsentSegment,
          unsentPairs]
  | cons b bs =>
      have hc : 1 ≤ ((b :: bs).length + N - 1) / N := by
        rw [Nat.le_div_iff_mul_le (by omega)]
        simp only [List.length_cons, Nat.one_mul]
        omega
      have hsegs : ((SendStreamBuf.new (b :: bs) next).splitFirstUnsentSegment
          N).segs = chunkSegs (((b :: bs).length + N - 1) / N)
            (b :: bs).length next (b :: bs) := by
        show (SendStreamBuf.splitFirstUnsentSegment
          ⟨[⟨next, b :: bs, false⟩]⟩ N).segs = _
        rw [SendStreamBuf.splitFirstUnsentSegment]
        dsimp only
        rw [if_neg (by simp; omega)]
        simp
      have hunsent : unsentPairs ((SendStreamBuf.new (b :: bs)
          next).splitFirstUnsentSegment N) =
          (chunkSegs (((b :: bs).length + N - 1) / N) (b :: bs).length next
            (b :: bs)).map (fun g => (g.start, g.payload)) := by
        rw [unsentPairs, hsegs, List.filter_eq_self.mpr]
        intro g hg
        rw [chunkSegs_unsent _ _ _ _ g hg]
        rfl
      rw [hunsent]
      constructor
      · rw [List.map_map]
        show ((chunkSegs _ _ _ _).map (fun g => g.payload)).flatten = _
        exact chunkSegs_flatten _ hc _ _ (Nat.le_refl _) next
      · apply List.pairwise_map.mpr
        exact (chunkSegs_pairwise _ hc _ _ _).imp (fun h => h)

/-! ## Claim theorems -/

/-- C1: for every buffer `B` and every stream pool of size `N ≥ 1` whose
streams never fail their writes, `send_all(B)` (`batch_send_all`) returns
success, and the bytes delivered to the streams, with segments ordered by
their start offsets, concatenate to exactly `B`. -/
theorem c1_completeness (sd : Sender) (data : List Nat)
    (hne : sd.streams ≠ [])
    (hfp : ∀ s ∈ sd.streams, s.failPlan = [])
    (hw : ∀ s ∈ sd.streams, s.written = []) :
    (batchSendAll sd data).1 = .ok () ∧
    ((sortByStart (allWritten (batchSendAll sd data).2.1.streams)).map
      Prod.snd).flatten = data := by
  set sb0 := (SendStreamBuf.new data sd.next).splitFirstUnsentSegment
    sd.streams.length with hsb0
  have hN : 1 ≤ sd.streams.length := List.length_pos.mpr hne
  obtain ⟨hflat, hpw⟩ := initial_buf data sd.next sd.streams.length hN
  rw [← hsb0] at hflat hpw
  have hnd : ((unsentPairs sb0).map Prod.fst).Nodup :=
    List.pairwise_map.mpr (hpw.imp (fun h => Nat.ne_of_lt h))
  have hAW0 : allWritten sd.streams = [] := by
    rw [allWritten, List.flatten_eq_nil_iff]
    intro x hx
    obtain ⟨s, hs, rfl⟩ := List.mem_map.mp hx
    exact hw s hs
  have hperm0 : List.Perm (allWritten sd.streams ++ unsentPairs sb0)
      (unsentPairs sb0) := by
    rw [hAW0, List.nil_append]
  have hfuel : (unsentPairs sb0).length < loopFuel sd sb0 := by
    rw [loopFuel, unsentCount_eq]
    omega
  obtain ⟨sd', sb', hloop, hperm⟩ :=
    sendLoop_complete (loopFuel sd sb0) sd sb0 (unsentPairs sb0) hfuel hne
      hfp hnd hperm0
  have hba : batchSendAll sd data = (.ok (),
      ⟨sd'.streams, (sd'.next + data.length) % U64MOD⟩, sb') := by
    unfold batchSendAll
    dsimp only
    rw [← hsb0, hloop]
  rw [hba]
  refine ⟨rfl, ?_⟩
  show ((sortByStart (allWritten sd'.streams)).map Prod.snd).flatten = data
  have hsorteq : sortByStart (allWritten sd'.streams) = unsentPairs sb0 :=
    perm_sorted_unique _ _ ((sortByStart_perm _).trans hperm)
      (sortByStart_sorted _) hpw
  rw [hsorteq, hflat]

/-- Witness for C1 at a concrete input: two never-failing streams and a
five-byte buffer. -/
theorem c1_completeness_witness :
    (batchSendAll ⟨[⟨1, [], [], false, 0, false, 0⟩,
        ⟨2, [], [], false, 0, false, 0⟩], 0⟩ [10, 11, 12, 13, 14]).1 =
      .ok () ∧
    ((sortByStart (allWritten (batchSendAll ⟨[⟨1, [], [], false, 0, false, 0⟩,
        ⟨2, [], [], false, 0, false, 0⟩], 0⟩
        [10, 11, 12, 13, 14]).2.1.streams)).map Prod.snd).flatten =
      [10, 11, 12, 13, 14] :=
  c1_completeness ⟨[⟨1, [], [], false, 0, false, 0⟩,
      ⟨2, [], [], false, 0, false, 0⟩], 0⟩ [10, 11, 12, 13, 14]
    (by decide) (by decide) (by decide)

theorem oksOf_mem_src (pairs : List (Segment × OStream)) :
    ∀ p ∈ oksOf (pairs.map (fun x => streamSend x.1 x.2)),
      ∃ pr ∈ pairs, p.1 = pr.1.start := by
  induction pairs with
  | nil => simp [oksOf_nil]
  | cons x rest ih =>
      intro p hp
      rw [List.map_cons] at hp
      cases hc : streamSend x.1 x.2 with
      | ok v =>
          rw [hc, oksOf_cons] at hp
          rcases List.mem_cons.mp hp with h | h
          · obtain ⟨q, st⟩ := v
            obtain ⟨h1, -, -, -⟩ := streamSend_ok hc
            refine ⟨x, List.mem_cons_self _ _, ?_⟩
            rw [h]
            exact h1
          · obtain ⟨pr, hpr, he⟩ := ih p h
            exact ⟨pr, List.mem_cons_of_mem _ hpr, he⟩
      | error e0 =>
          rw [hc, oksOf_cons] at hp
          obtain ⟨pr, hpr, he⟩ := ih p hp
          exact ⟨pr, List.mem_cons_of_mem _ hpr, he⟩

theorem isSent_markAll_of_mem (sb : SendStreamBuf) (S : List Nat) (q : Nat)
    (hq : q ∈ S) (hg : ∃ g ∈ sb.segs, g.start = q) :
    (markAll sb S).isSent q = true := by
  obtain ⟨g, hgmem, hgs⟩ := hg
  rw [SendStreamBuf.isSent, List.any_eq_true]
  refine ⟨⟨g.start, g.payload, g.sent || S.any (fun x => g.start == x)⟩,
    ?_, ?_⟩
  · rw [markAll_segs]
    exact List.mem_map.mpr ⟨g, hgmem, rfl⟩
  · have hany : S.any (fun x => g.start == x) = true :=
      List.any_eq_true.mpr ⟨q, hq, by simp [hgs]⟩
    simp [hgs, hany]
    exact Or.inr hq

/-- C2: a round that fails with the aggregate stream-I/O error is never
returned to the caller of `batch_send_all`: the loop retries with the
shrunken pool, and the only failure `batch_send_all` can ever return is the
terminal no-streams-left error. -/
theorem c2_io_error_not_returned (fuel : Nat) (sd : Sender)
    (sb : SendStreamBuf) (errs : List Nat) (sd' : Sender)
    (sb' : SendStreamBuf) (data : List Nat) (e : NoStreamLeft)
    (h : batchSend sd sb = (.error (.io errs), sd', sb')) :
    sendLoop (fuel + 1) sd sb = sendLoop fuel sd' sb' ∧
    ((batchSendAll sd data).1 = .error e → e = .mk) :=
  ⟨sendLoop_io_step fuel sd sb errs sd' sb' h, fun _ => by cases e; rfl⟩

/-- Witness for C2: a two-stream pool whose first stream fails its write. -/
theorem c2_io_error_not_returned_witness :
    sendLoop (3 + 1) ⟨[⟨1, [true], [], false, 0, false, 0⟩,
        ⟨2, [], [], false, 0, false, 0⟩], 0⟩
        ⟨[⟨0, [7], false⟩, ⟨1, [8], false⟩]⟩ =
      sendLoop 3 ⟨[⟨2, [], [(1, [8])], false, 0, false, 0⟩], 0⟩
        ⟨[⟨0, [7], false⟩, ⟨1, [8], true⟩]⟩ ∧
    ((batchSendAll ⟨[⟨1, [true], [], false, 0, false, 0⟩,
        ⟨2, [], [], false, 0, false, 0⟩], 0⟩ [9]).1 =
        .error NoStreamLeft.mk → NoStreamLeft.mk = NoStreamLeft.mk) :=
  c2_io_error_not_returned 3 _ _ [1] _ _ [9] .mk rfl

/-- C3: a dispatch round in which at least one spawned task fails returns the
aggregate `Io` error carrying the list of all the failing tasks' errors, and
only after every task has been reconciled: each successful task's stream is
back in the pool and its segment's start offset is marked sent, even though
the round reports failure. -/
theorem c3_round_failure_aggregates (sd : Sender) (sb : SendStreamBuf)
    (hfail : errsOf (roundResults sd sb) ≠ []) :
    (batchSend sd sb).1 = .error (.io (errsOf (roundResults sd sb))) ∧
    ∀ p ∈ oksOf (roundResults sd sb),
      p.2 ∈ (batchSend sd sb).2.1.streams ∧
      (batchSend sd sb).2.2.isSent p.1 = true := by
  have hne : sd.streams ≠ [] := by
    intro h0
    apply hfail
    rw [roundResults_empty_pool sd sb h0]
    rfl
  constructor
  · rw [batchSend_eq sd sb hne]
    show (if errsOf (roundResults sd sb) = [] then _ else _) = _
    rw [if_neg hfail]
  · intro p hp
    constructor
    · rw [batchSend_eq sd sb hne]
      show p.2 ∈ poolRest sd sb ++ _
      exact List.mem_append_right _ (List.mem_map.mpr ⟨p, hp, rfl⟩)
    · rw [batchSend_eq sd sb hne]
      show (markAll sb
        ((oksOf (roundResults sd sb)).map Prod.fst)).isSent p.1 = true
      apply isSent_markAll_of_mem
      · exact List.mem_map.mpr ⟨p, hp, rfl⟩
      · obtain ⟨pr, hpr, he⟩ := oksOf_mem_src
          (sb.iterUnsentSegments.zip sd.streams) p
          (by simpa [roundResults] using hp)
        have hseg : pr.1 ∈ sb.iterUnsentSegments := (List.of_mem_zip hpr).1
        rw [SendStreamBuf.iterUnsentSegments] at hseg
        obtain ⟨g, hgf, hge⟩ := List.mem_map.mp hseg
        refine ⟨g, List.mem_of_mem_filter hgf, ?_⟩
        rw [he, ← hge]

/-- Witness for C3: the same failing round as for C2, with the successful
task `(offset 1, stream 2)` reconciled. -/
theorem c3_round_failure_aggregates_witness :
    (batchSend ⟨[⟨1, [true], [], false, 0, false, 0⟩,
        ⟨2, [], [], false, 0, false, 0⟩], 0⟩
        ⟨[⟨0, [7], false⟩, ⟨1, [8], false⟩]⟩).1 =
      .error (.io (errsOf (roundResults ⟨[⟨1, [true], [], false, 0, false, 0⟩,
        ⟨2, [], [], false, 0, false, 0⟩], 0⟩
        ⟨[⟨0, [7], false⟩, ⟨1, [8], false⟩]⟩))) ∧
    (1, (⟨2, [], [(1, [8])], false, 0, false, 0⟩ : OStream)).2 ∈
      (batchSend ⟨[⟨1, [true], [], false, 0, false, 0⟩,
        ⟨2, [], [], false, 0, false, 0⟩], 0⟩
        ⟨[⟨0, [7], false⟩, ⟨1, [8], false⟩]⟩).2.1.streams ∧
    (batchSend ⟨[⟨1, [true], [], false, 0, false, 0⟩,
        ⟨2, [], [], false, 0, false, 0⟩], 0⟩
        ⟨[⟨0, [7], false⟩, ⟨1, [8], false⟩]⟩).2.2.isSent
      (1, (⟨2, [], [(1, [8])], false, 0, false, 0⟩ : OStream)).1 = true :=
  ⟨(c3_round_failure_aggregates _ _ (by decide)).1,
   ((c3_round_failure_aggregates _ _ (by decide)).2 _ (by decide)).1,
   ((c3_round_failure_aggregates _ _ (by decide)).2 _ (by decide)).2⟩

/-- C4 counterexample: a round over a pool of 2 streams in which k = 1 write
fails and 1 stream succeeds and is returned.  The claim's formula predicts a
pool of size 2 - 1 + 1 = 2 after the round; the code leaves 1 stream. -/
theorem c4_pool_size_counterexample :
    (errsOf (roundResults ⟨[⟨1, [true], [], false, 0, false, 0⟩,
        ⟨2, [], [], false, 0, false, 0⟩], 0⟩
        ⟨[⟨0, [7], false⟩, ⟨1, [8], false⟩]⟩)).length = 1 ∧
    (oksOf (roundResults ⟨[⟨1, [true], [], false, 0, false, 0⟩,
        ⟨2, [], [], false, 0, false, 0⟩], 0⟩
        ⟨[⟨0, [7], false⟩, ⟨1, [8], false⟩]⟩)).length = 1 ∧
    ¬((batchSend ⟨[⟨1, [true], [], false, 0, false, 0⟩,
        ⟨2, [], [], false, 0, false, 0⟩], 0⟩
        ⟨[⟨0, [7], false⟩, ⟨1, [8], false⟩]⟩).2.1.streams.length =
      2 - 1 + 1) := by decide

/-- C4 (amended): for a round in which k stream writes fail, the pool size
after the round equals (pool size before) - k (each dispatched stream either
fails and is dropped or is returned); and, for distinct stream ids, a stream
whose write failed never reappears in the pool in any later round of the same
sender instance. -/
theorem c4_pool_shrinkage_amended (sd : Sender) (sb : SendStreamBuf)
    (e : Nat) (sbs : List SendStreamBuf)
    (hnd : (poolIds sd.streams).Nodup)
    (he : e ∈ errsOf (roundResults sd sb)) :
    (batchSend sd sb).2.1.streams.length =
      sd.streams.length - (errsOf (roundResults sd sb)).length ∧
    e ∉ poolIds (iterRounds (batchSend sd sb).2.1 sbs).streams :=
  ⟨batchSend_pool_length sd sb,
   iterRounds_not_mem sbs _ e (batchSend_err_not_mem sd sb hnd e he)⟩

/-- Witness for the amended C4: the failed stream 1 stays out of the pool
through one further round. -/
theorem c4_pool_shrinkage_amended_witness :
    (batchSend ⟨[⟨1, [true], [], false, 0, false, 0⟩,
        ⟨2, [], [], false, 0, false, 0⟩], 0⟩
        ⟨[⟨0, [7], false⟩, ⟨1, [8], false⟩]⟩).2.1.streams.length =
      2 - (errsOf (roundResults ⟨[⟨1, [true], [], false, 0, false, 0⟩,
        ⟨2, [], [], false, 0, false, 0⟩], 0⟩
        ⟨[⟨0, [7], false⟩, ⟨1, [8], false⟩]⟩)).length ∧
    1 ∉ poolIds (iterRounds (batchSend ⟨[⟨1, [true], [], false, 0, false, 0⟩,
        ⟨2, [], [], false, 0, false, 0⟩], 0⟩
        ⟨[⟨0, [7], false⟩, ⟨1, [8], false⟩]⟩).2.1
        [⟨[⟨2, [9], false⟩]⟩]).streams :=
  c4_pool_shrinkage_amended _ _ 1 [⟨[⟨2, [9], false⟩]⟩] (by decide) (by decide)

/-- C5: whenever the stream pool is empty, a dispatch round fails immediately
with the no-streams-left error and leaves the state untouched; consequently
every subsequent send attempt of that sender fails with pool exhaustion. -/
theorem c5_empty_pool_terminal (sd : Sender) (sb : SendStreamBuf)
    (data : List Nat) (h : sd.streams = []) :
    batchSend sd sb = (.error .noStreamLeft, sd, sb) ∧
    (batchSendAll sd data).1 = .error .mk ∧
    (batchSendAll sd data).2.1 = sd :=
  ⟨batchSend_empty sb h, (batchSendAll_empty sd data h).1,
   (batchSendAll_empty sd data h).2⟩

/-- Witness for C5: an exhausted sender with one pending segment buffer. -/
theorem c5_empty_pool_terminal_witness :
    batchSend ⟨[], 5⟩ ⟨[⟨0, [1], false⟩]⟩ =
      (.error .noStreamLeft, ⟨[], 5⟩, ⟨[⟨0, [1], false⟩]⟩) ∧
    (batchSendAll ⟨[], 5⟩ [1, 2, 3]).1 = .error .mk ∧
    (batchSendAll ⟨[], 5⟩ [1, 2, 3]).2.1 = ⟨[], 5⟩ :=
  c5_empty_pool_terminal ⟨[], 5⟩ ⟨[⟨0, [1], false⟩]⟩ [1, 2, 3] rfl

/-- C6: `batch_send_all` on a buffer of length L advances the next-sequence
cursor by exactly L only when the segment buffer reports every byte sent (at
which point it returns success); on the no-streams-left failure path the
cursor is unchanged. -/
theorem c6_cursor_advance (sd : Sender) (data : List Nat)
    (hov : sd.next + data.length < U64MOD) :
    ((batchSendAll sd data).1 = .ok () →
      (batchSendAll sd data).2.1.next = sd.next + data.length ∧
      (batchSendAll sd data).2.2.done = true) ∧
    ((batchSendAll sd data).1 ≠ .ok () →
      (batchSendAll sd data).2.1.next = sd.next) := by
  obtain ⟨h1, h2⟩ := batchSendAll_cases sd data
  refine ⟨fun hok => ?_, h2⟩
  obtain ⟨ha, hb⟩ := h1 hok
  rw [ha, Nat.mod_eq_of_lt hov]
  exact ⟨rfl, hb⟩

/-- Witness for C6: a successful send of two bytes advances the cursor from
3 to 5 with the segment buffer complete. -/
theorem c6_cursor_advance_witness :
    ((batchSendAll ⟨[⟨1, [], [], false, 0, false, 0⟩], 3⟩ [7, 8]).1 =
        .ok () →
      (batchSendAll ⟨[⟨1, [], [], false, 0, false, 0⟩], 3⟩
        [7, 8]).2.1.next = 3 + 2 ∧
      (batchSendAll ⟨[⟨1, [], [], false, 0, false, 0⟩], 3⟩
        [7, 8]).2.2.done = true) ∧
    ((batchSendAll ⟨[⟨1, [], [], false, 0, false, 0⟩], 3⟩ [7, 8]).1 ≠
        .ok () →
      (batchSendAll ⟨[⟨1, [], [], false, 0, false, 0⟩], 3⟩
        [7, 8]).2.1.next = 3) :=
  c6_cursor_advance ⟨[⟨1, [], [], false, 0, false, 0⟩], 3⟩ [7, 8]
    (by simp [U64MOD])

/-- C7: the adapter's `write(buffer)` sends the entire slice as one logical
buffer via `batch_send_all`; a no-streams-left failure becomes a
broken-pipe-class I/O error; otherwise write returns exactly the full input
length, never a partial count. -/
theorem c7_adapter_write (sd : Sender) (buf : List Nat) :
    ((batchSendAll sd buf).1 = .ok () →
      Sender.write sd buf = (.ok buf.length, (batchSendAll sd buf).2.1)) ∧
    ((batchSendAll sd buf).1 ≠ .ok () →
      (Sender.write sd buf).1 = .error .brokenPipe) ∧
    ∀ n, (Sender.write sd buf).1 = .ok n → n = buf.length := by
  unfold Sender.write
  rcases hb : batchSendAll sd buf with ⟨res, sd', sb'⟩
  cases res with
  | ok u =>
      cases u
      dsimp only
      refine ⟨fun _ => rfl, fun habs => absurd rfl habs, fun n hn => ?_⟩
      simp only [Except.ok.injEq] at hn
      exact hn.symm
  | error e =>
      dsimp only
      refine ⟨fun habs => absurd habs (by simp), fun _ => rfl, fun n hn => ?_⟩
      simp at hn

/-- Witness for C7: a successful write of two bytes reports length 2. -/
theorem c7_adapter_write_witness :
    Sender.write ⟨[⟨1, [], [], false, 0, false, 0⟩], 0⟩ [4, 5] =
      (.ok 2, (batchSendAll ⟨[⟨1, [], [], false, 0, false, 0⟩], 0⟩
        [4, 5]).2.1) :=
  (c7_adapter_write ⟨[⟨1, [], [], false, 0, false, 0⟩], 0⟩ [4, 5]).1 rfl

/-- C8: `flush()` (and symmetrically `shutdown()`) visits the pooled streams
front to back; the first failing stream's error is returned immediately,
leaving all later streams untouched; with no failing stream the call succeeds
after flushing every pooled stream. -/
theorem c8_flush_shutdown_fanout (pool a b : List OStream) (s : OStream)
    (next : Nat) :
    ((∀ x ∈ pool, x.flushFail = false) →
      Sender.flush ⟨pool, next⟩ = (.ok (), ⟨pool.map flushBump, next⟩)) ∧
    ((∀ x ∈ a, x.flushFail = false) → s.flushFail = true →
      Sender.flush ⟨a ++ s :: b, next⟩ =
        (.error (.streamErr s.sid), ⟨a.map flushBump ++ s :: b, next⟩)) ∧
    ((∀ x ∈ pool, x.shutFail = false) →
      Sender.shutdown ⟨pool, next⟩ = (.ok (), ⟨pool.map shutBump, next⟩)) ∧
    ((∀ x ∈ a, x.shutFail = false) → s.shutFail = true →
      Sender.shutdown ⟨a ++ s :: b, next⟩ =
        (.error (.streamErr s.sid), ⟨a.map shutBump ++ s :: b, next⟩)) := by
  refine ⟨fun h => ?_, fun ha hs => ?_, fun h => ?_, fun ha hs => ?_⟩
  · unfold Sender.flush
    rw [flushList_ok pool h]
  · unfold Sender.flush
    rw [flushList_err a s b ha hs]
  · unfold Sender.shutdown
    rw [shutdownList_ok pool h]
  · unfold Sender.shutdown
    rw [shutdownList_err a s b ha hs]

/-- Witness for C8: a pool of three streams whose middle stream fails both
flush and shutdown, and an all-healthy pool of one stream. -/
theorem c8_flush_shutdown_fanout_witness :
    Sender.flush ⟨[⟨1, [], [], false, 0, false, 0⟩], 9⟩ =
      (.ok (), ⟨[⟨1, [], [], false, 1, false, 0⟩], 9⟩) ∧
    Sender.flush ⟨[⟨1, [], [], false, 0, false, 0⟩] ++
        ⟨2, [], [], true, 0, true, 0⟩ :: [⟨3, [], [], false, 0, false, 0⟩],
        9⟩ =
      (.error (.streamErr 2), ⟨[⟨1, [], [], false, 1, false, 0⟩] ++
        ⟨2, [], [], true, 0, true, 0⟩ :: [⟨3, [], [], false, 0, false, 0⟩],
        9⟩) ∧
    Sender.shutdown ⟨[⟨1, [], [], false, 0, false, 0⟩], 9⟩ =
      (.ok (), ⟨[⟨1, [], [], false, 0, false, 1⟩], 9⟩) ∧
    Sender.shutdown ⟨[⟨1, [], [], false, 0, false, 0⟩] ++
        ⟨2, [], [], true, 0, true, 0⟩ :: [⟨3, [], [], false, 0, false, 0⟩],
        9⟩ =
      (.error (.streamErr 2), ⟨[⟨1, [], [], false, 0, false, 1⟩] ++
        ⟨2, [], [], true, 0, true, 0⟩ :: [⟨3, [], [], false, 0, false, 0⟩],
        9⟩) :=
  ⟨(c8_flush_shutdown_fanout [⟨1, [], [], false, 0, false, 0⟩]
      [⟨1, [], [], false, 0, false, 0⟩] [⟨3, [], [], false, 0, false, 0⟩]
      ⟨2, [], [], true, 0, true, 0⟩ 9).1 (by decide),
   (c8_flush_shutdown_fanout [⟨1, [], [], false, 0, false, 0⟩]
      [⟨1, [], [], false, 0, false, 0⟩] [⟨3, [], [], false, 0, false, 0⟩]
      ⟨2, [], [], true, 0, true, 0⟩ 9).2.1 (by decide) (by decide),
   (c8_flush_shutdown_fanout [⟨1, [], [], false, 0, false, 0⟩]
      [⟨1, [], [], false, 0, false, 0⟩] [⟨3, [], [], false, 0, false, 0⟩]
      ⟨2, [], [], true, 0, true, 0⟩ 9).2.2.1 (by decide),
   (c8_flush_shutdown_fanout [⟨1, [], [], false, 0, false, 0⟩]
      [⟨1, [], [], false, 0, false, 0⟩] [⟨3, [], [], false, 0, false, 0⟩]
      ⟨2, [], [], true, 0, true, 0⟩ 9).2.2.2 (by decide) (by decide)⟩

/-- C9: `batch_send_all` on a sender with an empty stream pool returns the
no-streams-left error for every buffer, including the empty buffer whose
fresh segment buffer is already complete: the empty-pool check comes before
the completion check. -/
theorem c9_empty_pool_checked_first (sd : Sender) (data : List Nat)
    (h : sd.streams = []) :
    (batchSendAll sd data).1 = .error .mk ∧
    (data = [] → ((SendStreamBuf.new data
      sd.next).splitFirstUnsentSegment sd.streams.length).done = true) :=
  ⟨(batchSendAll_empty sd data h).1, fun hd => by subst hd; rfl⟩

/-- Witness for C9: the empty buffer on an exhausted sender still reports
no-streams-left even though its segment buffer is complete from the start. -/
theorem c9_empty_pool_checked_first_witness :
    (batchSendAll ⟨[], 7⟩ []).1 = .error .mk ∧
    (([] : List Nat) = [] → ((SendStreamBuf.new [] 7).splitFirstUnsentSegment
      (List.length ([] : List OStream))).done = true) :=
  c9_empty_pool_checked_first ⟨[], 7⟩ [] rfl

/-- C10: the adapter's `flush()` and `shutdown()` on a sender with an empty
stream pool both return success without touching any stream. -/
theorem c10_flush_shutdown_empty (next : Nat) :
    Sender.flush ⟨[], next⟩ = (.ok (), ⟨[], next⟩) ∧
    Sender.shutdown ⟨[], next⟩ = (.ok (), ⟨[], next⟩) :=
  ⟨rfl, rfl⟩
